import Mathlib

/-!
Verification of the sandbagger golf round-tracking app's statistics
aggregation core, shallowly embedded from the TypeScript/TSX source.
JavaScript numbers that hold integral values are modelled as `Int`;
values produced by division (percent/average intermediates) as `ℚ`;
`null`/`undefined` as `Option`; `Math.round` as `jsRound` below.
-/

namespace Sandbagger

/-- JavaScript `Math.round x = ⌊x + 0.5⌋` (rounds half toward +infinity). -/
def jsRound (q : ℚ) : Int := (q + 1/2).floor

/-- The pervasive `Math.round (q * 10) / 10` one-decimal rounding. -/
def round1 (q : ℚ) : ℚ := (jsRound (q * 10) : ℚ) / 10

/-- JavaScript falsiness of a nullable integer: `null`, `undefined` and `0`. -/
def jsFalsyInt : Option Int → Bool
  | none => true
  | some n => n == 0

/-- JavaScript falsiness of a nullable string: `null`, `undefined` and `""`. -/
def jsFalsyStr : Option String → Bool
  | none => true
  | some s => s == ""

/-- JavaScript `n || 0` on an integer value. -/
def jsOrZero (n : Int) : Int := if n = 0 then 0 else n

/-! ### Score classification (components/ScoreCell.tsx)

The component branches on `score - par` after the guard `if (!score || !par)`
which returns the dash (unknown) cell. Each render branch is mapped to a
constructor of `Category`. -/

inductive Category where
  | EagleOrBetter
  | Birdie
  | Par
  | Bogey
  | DoubleBogey
  | TripleOrWorse
  | Unknown
deriving DecidableEq, Repr

/-- ScoreCell's branch structure: the falsy guard, then the `diff` ladder. -/
def classify (score par : Option Int) : Category :=
  if jsFalsyInt score || jsFalsyInt par then Category.Unknown
  else
    let diff := score.getD 0 - par.getD 0
    if diff ≤ -2 then Category.EagleOrBetter
    else if diff = -1 then Category.Birdie
    else if diff = 0 then Category.Par
    else if diff = 1 then Category.Bogey
    else if diff = 2 then Category.DoubleBogey
    else Category.TripleOrWorse

/-! ### Generic stable insertion sorts, modelling the database `order(...)`
clauses and JavaScript's stable `Array.prototype.sort` with a numeric key. -/

/-- Stable insert for a descending sort by an integer key: an element moves
before `y` only when its key is strictly larger, so ties keep input order,
matching a stable sort with comparator `(a, b) => key b - key a`. -/
def insertByDesc (key : α → Int) (x : α) : List α → List α
  | [] => [x]
  | y :: ys => if key y < key x then x :: y :: ys else y :: insertByDesc key x ys

/-- Stable descending sort by an integer key. -/
def sortByDesc (key : α → Int) : List α → List α
  | [] => []
  | x :: xs => insertByDesc key x (sortByDesc key xs)

/-- Stable insert for an ascending sort by an integer key. -/
def insertByAsc (key : α → Int) (x : α) : List α → List α
  | [] => [x]
  | y :: ys => if key x < key y then x :: y :: ys else y :: insertByAsc key x ys

/-- Stable ascending sort by an integer key. -/
def sortByAsc (key : α → Int) : List α → List α
  | [] => []
  | x :: xs => insertByAsc key x (sortByAsc key xs)

/-! ### Hole-score rows as fetched for the feed (app/(tabs)/feed.tsx)

The feed queries `sb_hole_scores` for `round_id, fairway_hit, gir, putts,
score, par`; `fairway_hit`, `gir`, `putts`, `score`, `par` are nullable. -/

structure FeedHoleRow where
  round_id : String
  fairway_hit : Option Bool
  gir : Option Bool
  putts : Option Int
  score : Option Int
  par : Option Int
deriving DecidableEq, Repr

/-- Per-round `fairway_pct` of the feed: holes with `fairway_hit !== null`,
`null` when there are none, else `Math.round(hits / known * 100)`. -/
def feedFairwayPct (hs : List FeedHoleRow) : Option Int :=
  let fwHoles := hs.filter (fun h => h.fairway_hit.isSome)
  if fwHoles.length = 0 then none
  else some (jsRound (((fwHoles.filter (fun h => h.fairway_hit == some true)).length : ℚ)
      / (fwHoles.length : ℚ) * 100))

/-- Per-round `gir_pct` of the feed, analogous over `gir !== null`. -/
def feedGirPct (hs : List FeedHoleRow) : Option Int :=
  let girHoles := hs.filter (fun h => h.gir.isSome)
  if girHoles.length = 0 then none
  else some (jsRound (((girHoles.filter (fun h => h.gir == some true)).length : ℚ)
      / (girHoles.length : ℚ) * 100))

/-- Per-round `avg_putts` of the feed: total putts over putt-tracked holes
divided by the number of putt-tracked holes (a per-hole average). -/
def feedAvgPutts (hs : List FeedHoleRow) : Option ℚ :=
  let puttHoles := hs.filter (fun h => h.putts.isSome)
  if puttHoles.length = 0 then none
  else some ((jsRound (((puttHoles.foldl (fun s h => s + h.putts.getD 0) 0 : Int) : ℚ)
      / (puttHoles.length : ℚ) * 10) : ℚ) / 10)

/-- Feed `birdies`: holes with truthy score and par and `score === par - 1`. -/
def feedBirdies (hs : List FeedHoleRow) : Nat :=
  (hs.filter (fun h => !jsFalsyInt h.score && !jsFalsyInt h.par
      && h.score.getD 0 == h.par.getD 0 - 1)).length

/-- Feed `eagles`: holes with truthy score and par and `score <= par - 2`. -/
def feedEagles (hs : List FeedHoleRow) : Nat :=
  (hs.filter (fun h => !jsFalsyInt h.score && !jsFalsyInt h.par
      && decide (h.score.getD 0 ≤ h.par.getD 0 - 2))).length

/-! ### Player statistics page (app/(tabs)/stats.tsx)

Rounds are fetched ordered by `date_played` ascending; the range filter
keeps all rounds or `allRounds.slice(-N)`; hole-score rows of the kept
rounds feed the summary metrics. -/

structure RoundStat where
  id : String
  date_played : Int
  total_score : Int
deriving DecidableEq, Repr

structure StatsHoleRow where
  round_id : String
  fairway_hit : Option Bool
  fairway_miss_dir : Option String
  gir : Option Bool
  putts : Option Int
  wedge_and_in : Option Int
  hole_number : Int
  score : Int
  par : Option Int
deriving DecidableEq, Repr

/-- The range pills: `'all' | '3' | '5' | '10' | '25'` (`parseInt`-ed). -/
inductive RangeOption where
  | all
  | lastN (n : Nat)
deriving DecidableEq, Repr

/-- The stats query's `order('date_played', ascending: true)` clause. -/
def orderByDateAsc (rs : List RoundStat) : List RoundStat :=
  sortByAsc (fun r => r.date_played) rs

/-- JavaScript `l.slice(-n)` for `n ≥ 1`: the last `n` elements (the whole
list when `n` exceeds its length). -/
def jsSliceLast (l : List α) (n : Nat) : List α := l.drop (l.length - n)

/-- `range === 'all' ? allRounds : allRounds.slice(-parseInt(range))`. -/
def filteredRounds (allRounds : List RoundStat) : RangeOption → List RoundStat
  | RangeOption.all => allRounds
  | RangeOption.lastN n => jsSliceLast allRounds n

/-- Hole-score rows whose `round_id` is among the kept rounds' ids (the
source groups rows by round and concatenates the kept groups; only the
multiset of rows matters to every consumer, which this filter preserves). -/
def filteredScores (scores : List StatsHoleRow) (ids : List String) : List StatsHoleRow :=
  scores.filter (fun h => ids.contains h.round_id)

/-- `avgScore`: mean of `total_score || 0` over kept rounds, one decimal,
`0` when no rounds. -/
def statsAvgScore (rounds : List RoundStat) : ℚ :=
  if rounds.length = 0 then 0
  else round1 (((rounds.foldl (fun s r => s + jsOrZero r.total_score) 0 : Int) : ℚ)
      / (rounds.length : ℚ))

/-- `fwPct` of the stats page: `0` (not null) when no hole has a known
fairway outcome. -/
def statsFwPct (scores : List StatsHoleRow) : Int :=
  let fwHoles := scores.filter (fun h => h.fairway_hit.isSome)
  if fwHoles.length = 0 then 0
  else jsRound (((fwHoles.filter (fun h => h.fairway_hit == some true)).length : ℚ)
      / (fwHoles.length : ℚ) * 100)

/-- `girPct` of the stats page: `0` (not null) when the subset is empty. -/
def statsGirPct (scores : List StatsHoleRow) : Int :=
  let girHoles := scores.filter (fun h => h.gir.isSome)
  if girHoles.length = 0 then 0
  else jsRound (((girHoles.filter (fun h => h.gir == some true)).length : ℚ)
      / (girHoles.length : ℚ) * 100)

/-- `avgPutts` of the stats page: total putts over putt-tracked holes of the
window divided by the number of kept ROUNDS (a per-round figure). -/
def statsAvgPutts (scores : List StatsHoleRow) (rounds : List RoundStat) : ℚ :=
  let puttHoles := scores.filter (fun h => h.putts.isSome)
  if puttHoles.length = 0 ∨ rounds.length = 0 then 0
  else round1 (((puttHoles.foldl (fun s h => s + h.putts.getD 0) 0 : Int) : ℚ)
      / (rounds.length : ℚ))

/-- Expanded recent-round detail `totalPutts` (`putts ?? 0` summed). -/
def recentTotalPutts (hs : List StatsHoleRow) : Int :=
  hs.foldl (fun s h => s + h.putts.getD 0) 0

/-! ### Club-distance aggregation (stats page) -/

structure ShotRow where
  club : Option String
  distance_yards : Option Int
deriving DecidableEq, Repr

structure ClubStat where
  club : String
  avgDistance : Int
  count : Nat
deriving DecidableEq, Repr

/-- The `forEach` guard `if (!s.club || !s.distance_yards) return`: only
shots with a truthy club and a truthy distance enter the club map. -/
def validShots (shots : List ShotRow) : List ShotRow :=
  shots.filter (fun s => !jsFalsyStr s.club && !jsFalsyInt s.distance_yards)

/-- Club keys in first-seen order (the `Map` insertion order). -/
def clubNames (shots : List ShotRow) : List String :=
  shots.foldl (fun acc s =>
    let c := s.club.getD ""
    if acc.contains c then acc else acc ++ [c]) []

/-- Distances recorded for one exact club string, in input order. -/
def clubDistances (shots : List ShotRow) (c : String) : List Int :=
  (shots.filter (fun s => s.club == some c)).map (fun s => s.distance_yards.getD 0)

/-- The `clubStats` array: per-club `Math.round(sum/count)` and count, sorted
by `(a, b) => b.avgDistance - a.avgDistance` (stable descending). -/
def clubStats (shots : List ShotRow) : List ClubStat :=
  let v := validShots shots
  sortByDesc (fun cs => cs.avgDistance)
    ((clubNames v).map (fun c =>
      let ds := clubDistances v c
      { club := c
        avgDistance := jsRound (((ds.foldl (fun a b => a + b) 0 : Int) : ℚ) / (ds.length : ℚ))
        count := ds.length }))

/-! ### Round logging (app/(tabs)/log.tsx): hole entries, edits, saving -/

structure ShotData where
  shot_number : Int
  club : String
  shot_shape : String
  intention : String
  result_lie : String
  miss_direction : String
deriving DecidableEq, Repr

def defaultShot (n : Int) : ShotData :=
  { shot_number := n, club := "", shot_shape := "", intention := ""
    result_lie := "", miss_direction := "" }

structure HoleEntry where
  score : Int
  putts : Int
  fairway_hit : Option Bool
  fairway_miss_dir : Option String
  gir : Bool
  penalties : Int
  wedge_and_in : Option Int
  shots : List ShotData
deriving DecidableEq, Repr

/-- One element of `initHoleEntries`. -/
def initHoleEntry : HoleEntry :=
  { score := 0, putts := 0, fairway_hit := none, fairway_miss_dir := none
    gir := false, penalties := 0, wedge_and_in := none, shots := [] }

instance : Inhabited HoleEntry := ⟨initHoleEntry⟩

inductive TrackingMode where
  | basic
  | advanced
  | strategy
  | mental
deriving DecidableEq, Repr

/-- Advanced-mode shots-array sync on a score change: pad with default shots
up to the new score, or truncate down to it. -/
def syncShots (shots : List ShotData) (newScore : Int) : List ShotData :=
  if (shots.length : Int) < newScore then
    shots ++ (List.range (newScore.toNat - shots.length)).map
      (fun k => defaultShot ((shots.length + k + 1 : Nat) : Int))
  else if newScore < (shots.length : Int) then shots.take newScore.toNat
  else shots

/-- The `field`/`value` pairs `updateHoleEntry` can receive, typed per field. -/
inductive HoleUpdate where
  | setScore (v : Int)
  | setPutts (v : Int)
  | setFairwayHit (v : Option Bool)
  | setFairwayMissDir (v : Option String)
  | setGir (v : Bool)
  | setPenalties (v : Int)
  | setWedgeAndIn (v : Option Int)
deriving DecidableEq, Repr

/-- `updateHoleEntry` on one entry: spread-update the field, reset
`fairway_miss_dir` when `fairway_hit` changes to non-false, and sync the
shots array when the score changes in advanced mode. -/
def updateHoleEntry (trackingMode : TrackingMode) (e : HoleEntry) : HoleUpdate → HoleEntry
  | HoleUpdate.setScore v =>
      let updated := { e with score := v }
      if trackingMode = TrackingMode.advanced then { updated with shots := syncShots e.shots v }
      else updated
  | HoleUpdate.setPutts v => { e with putts := v }
  | HoleUpdate.setFairwayHit v =>
      let updated := { e with fairway_hit := v }
      if v ≠ some false then { updated with fairway_miss_dir := none } else updated
  | HoleUpdate.setFairwayMissDir v => { e with fairway_miss_dir := v }
  | HoleUpdate.setGir v => { e with gir := v }
  | HoleUpdate.setPenalties v => { e with penalties := v }
  | HoleUpdate.setWedgeAndIn v => { e with wedge_and_in := v }

/-- One row of the `sb_hole_scores` insert issued by `saveRound`. -/
structure SavedHoleScore where
  hole_number : Int
  par : Option Int
  score : Int
  putts : Int
  fairway_hit : Option Bool
  fairway_miss_dir : Option String
  gir : Bool
  penalties : Int
  wedge_and_in : Option Int
deriving DecidableEq, Repr

/-- The insert-row builder of `saveRound`:
`fairway_miss_dir: e.fairway_hit === false ? e.fairway_miss_dir : null` and
`wedge_and_in: trackWedgeAndIn ? e.wedge_and_in : null`. -/
def savedHoleScore (trackWedgeAndIn : Bool) (holeNumber : Int) (par : Option Int)
    (e : HoleEntry) : SavedHoleScore :=
  { hole_number := holeNumber
    par := par
    score := e.score
    putts := e.putts
    fairway_hit := e.fairway_hit
    fairway_miss_dir := if e.fairway_hit == some false then e.fairway_miss_dir else none
    gir := e.gir
    penalties := e.penalties
    wedge_and_in := if trackWedgeAndIn then e.wedge_and_in else none }

/-- The round's stored `total_score`:
`activeIndices.reduce((s, i) => s + (holeEntries[i]?.score || 0), 0)`. -/
def saveRoundTotalScore (holeEntries : List HoleEntry) (activeIndices : List Nat) : Int :=
  activeIndices.foldl (fun s i =>
    s + (match holeEntries.get? i with
      | some e => jsOrZero e.score
      | none => 0)) 0

/-- The hole-score rows inserted by `saveRound` (`parOf` abstracts the
course/tee par lookup chain, which does not touch the entry's fields). -/
def saveRoundScoreRows (trackWedgeAndIn : Bool) (parOf : Nat → Option Int)
    (holeEntries : List HoleEntry) (activeIndices : List Nat) : List SavedHoleScore :=
  activeIndices.map (fun i =>
    savedHoleScore trackWedgeAndIn ((i + 1 : Nat) : Int) (parOf i) (holeEntries.getD i initHoleEntry))

/-! ### Feed (app/(tabs)/feed.tsx): inline edit saving and the two loaders -/

structure EditHoleScore where
  id : String
  hole_number : Int
  par : Option Int
  score : Int
  putts : Int
  fairway_hit : Option Bool
  gir : Option Bool
  penalties : Int
deriving DecidableEq, Repr

/-- `saveEdits`' recomputed round total:
`editScores.reduce((sum, h) => sum + (h.score || 0), 0)`; the same loop
stores each `hole.score` back, so the rows on disk are `editScores`. -/
def saveEditsNewTotal (editScores : List EditHoleScore) : Int :=
  editScores.foldl (fun s h => s + jsOrZero h.score) 0

structure RelEdge where
  user_id : String
  target_id : String
  type : String
  status : String
deriving DecidableEq, Repr

structure RoundRow where
  id : String
  user_id : String
  date_played : Int
  total_score : Int
  weather : String
  visibility : String
  is_complete : Bool
deriving DecidableEq, Repr

structure WedgeRow where
  round_id : String
  wedge_and_in : Option Int
deriving DecidableEq, Repr

/-- The follow-based loader's relationship query: rows with
`user_id = viewer, type = 'follow', status = 'accepted'`, projected to
`target_id`. -/
def followingIds (viewer : String) (rels : List RelEdge) : List String :=
  (rels.filter (fun e => e.user_id == viewer && e.type == "follow" && e.status == "accepted")).map
    (fun e => e.target_id)

/-- `[user.id, ...followingIds]`. -/
def visibleUserIds (viewer : String) (rels : List RelEdge) : List String :=
  viewer :: followingIds viewer rels

/-- The follow-based loader's rounds query: complete rounds by visible
users, date descending, limit 50. No visibility condition appears. -/
def loadFeedRounds (dbRounds : List RoundRow) (viewer : String) (rels : List RelEdge) :
    List RoundRow :=
  List.take 50 (sortByDesc (fun r => r.date_played)
    (dbRounds.filter (fun r => r.is_complete && (visibleUserIds viewer rels).contains r.user_id)))

/-- Wedge totals, from the non-null `wedge_and_in` rows of one round;
`null` when the round has none. -/
def wedgeTotal (wedgeRows : List WedgeRow) (roundId : String) : Option Int :=
  let ws := wedgeRows.filter (fun w => w.round_id == roundId && w.wedge_and_in.isSome)
  if ws.length = 0 then none
  else some (ws.foldl (fun s w => s + w.wedge_and_in.getD 0) 0)

/-- The `FeedRound` view model built per round. -/
structure FeedEntry where
  id : String
  date_played : Int
  total_score : Int
  weather : String
  user_id : String
  visibility : String
  fairway_pct : Option Int
  gir_pct : Option Int
  avg_putts : Option ℚ
  birdies : Nat
  eagles : Nat
  wedge_total : Option Int
deriving DecidableEq, Repr

/-- The per-round mapping step of the follow-based loader (the round's rows
are the group `scoresByRound.get(r.id) || []`). -/
def mkFeedEntry (scores : List FeedHoleRow) (wedgeRows : List WedgeRow) (r : RoundRow) :
    FeedEntry :=
  let hs := scores.filter (fun h => h.round_id == r.id)
  { id := r.id
    date_played := r.date_played
    total_score := r.total_score
    weather := r.weather
    user_id := r.user_id
    visibility := r.visibility
    fairway_pct := feedFairwayPct hs
    gir_pct := feedGirPct hs
    avg_putts := feedAvgPutts hs
    birdies := feedBirdies hs
    eagles := feedEagles hs
    wedge_total := wedgeTotal wedgeRows r.id }

/-- The follow-based `loadFeed`: every selected round is mapped; no
visibility filter is applied anywhere. -/
def loadFeed (dbRounds : List RoundRow) (viewer : String) (rels : List RelEdge)
    (scores : List FeedHoleRow) (wedgeRows : List WedgeRow) : List FeedEntry :=
  (loadFeedRounds dbRounds viewer rels).map (mkFeedEntry scores wedgeRows)

/-- The partners-based loader's relationship query:
`or(user_id.eq.viewer, target_id.eq.viewer)` with `status = 'accepted'`
(no `type` condition), projected to the other end of each edge. -/
def partnerIds (viewer : String) (rels : List RelEdge) : List String :=
  (rels.filter (fun e => (e.user_id == viewer || e.target_id == viewer) && e.status == "accepted")).map
    (fun e => if e.user_id == viewer then e.target_id else e.user_id)

/-- The partners-based loader's visibility filter:
own round, or `visibility === 'public'`, or `visibility === 'partners'`
with the owner among `partnerIds`. -/
def isVisible (r : RoundRow) (viewer : String) (rels : List RelEdge) : Bool :=
  r.user_id == viewer || r.visibility == "public" ||
    (r.visibility == "partners" && (partnerIds viewer rels).contains r.user_id)

/-- Stated from the claim's words, for comparison with `isVisible`: the
round belongs to the viewer, or its visibility is public, or it is
partners-visible and the viewer follows the round's owner with an accepted
relationship; nothing else grants visibility. -/
def isVisibleSpec (r : RoundRow) (viewer : String) (rels : List RelEdge) : Prop :=
  r.user_id = viewer ∨ r.visibility = "public" ∨
    (r.visibility = "partners" ∧
      ∃ e ∈ rels, e.user_id = viewer ∧ e.target_id = r.user_id ∧
        e.type = "follow" ∧ e.status = "accepted")

instance (r : RoundRow) (viewer : String) (rels : List RelEdge) :
    Decidable (isVisibleSpec r viewer rels) := by
  unfold isVisibleSpec; infer_instance

/-- Replace one round's visibility value, leaving everything else alone. -/
def updateVisibility (dbRounds : List RoundRow) (roundId v : String) : List RoundRow :=
  dbRounds.map (fun r => if r.id = roundId then { r with visibility := v } else r)

/-- Forget the visibility field a feed entry echoes from its round row. -/
def eraseEntryVisibility (fe : FeedEntry) : FeedEntry := { fe with visibility := "" }

/-! ### Helper lemmas -/

theorem jsOrZero_eq (n : Int) : jsOrZero n = n := by
  unfold jsOrZero; split <;> omega

theorem foldl_add_eq (f : α → Int) (l : List α) (c : Int) :
    l.foldl (fun s a => s + f a) c = c + (l.map f).sum := by
  induction l generalizing c with
  | nil => simp
  | cons x xs ih => rw [List.foldl_cons, ih (c + f x)]; simp; ring

theorem mem_insertByDesc (key : α → Int) (x a : α) (l : List α) :
    a ∈ insertByDesc key x l ↔ a = x ∨ a ∈ l := by
  induction l with
  | nil => simp [insertByDesc]
  | cons y ys ih =>
      unfold insertByDesc
      split
      · simp
      · simp [ih]; tauto

theorem mem_sortByDesc (key : α → Int) (a : α) (l : List α) :
    a ∈ sortByDesc key l ↔ a ∈ l := by
  induction l with
  | nil => simp [sortByDesc]
  | cons x xs ih => simp [sortByDesc, mem_insertByDesc, ih]

theorem length_insertByDesc (key : α → Int) (x : α) (l : List α) :
    (insertByDesc key x l).length = l.length + 1 := by
  induction l with
  | nil => simp [insertByDesc]
  | cons y ys ih => unfold insertByDesc; split <;> simp [ih]

theorem length_sortByDesc (key : α → Int) (l : List α) :
    (sortByDesc key l).length = l.length := by
  induction l with
  | nil => rfl
  | cons x xs ih => simp [sortByDesc, length_insertByDesc, ih]

theorem pairwise_insertByDesc (key : α → Int) (x : α) (l : List α)
    (h : l.Pairwise (fun a b => key b ≤ key a)) :
    (insertByDesc key x l).Pairwise (fun a b => key b ≤ key a) := by
  induction l with
  | nil => simp [insertByDesc]
  | cons y ys ih =>
      rw [List.pairwise_cons] at h
      obtain ⟨hy, hys⟩ := h
      unfold insertByDesc
      split
      · next hlt =>
          rw [List.pairwise_cons]
          refine ⟨?_, List.pairwise_cons.mpr ⟨hy, hys⟩⟩
          intro b hb
          rcases List.mem_cons.mp hb with rfl | hb
          · exact le_of_lt hlt
          · exact le_trans (hy b hb) (le_of_lt hlt)
      · next hge =>
          rw [List.pairwise_cons]
          refine ⟨?_, ih hys⟩
          intro b hb
          rcases (mem_insertByDesc key x b ys).mp hb with rfl | hb
          · omega
          · exact hy b hb

theorem pairwise_sortByDesc (key : α → Int) (l : List α) :
    (sortByDesc key l).Pairwise (fun a b => key b ≤ key a) := by
  induction l with
  | nil => simp [sortByDesc]
  | cons x xs ih => exact pairwise_insertByDesc key x _ ih

theorem insertByDesc_map (key : α → Int) (f : α → α) (hkey : ∀ a, key (f a) = key a)
    (x : α) (l : List α) :
    insertByDesc key (f x) (l.map f) = (insertByDesc key x l).map f := by
  induction l with
  | nil => simp [insertByDesc]
  | cons y ys ih =>
      simp only [List.map_cons]
      unfold insertByDesc
      simp only [hkey]
      split <;> simp [ih]

theorem sortByDesc_map (key : α → Int) (f : α → α) (hkey : ∀ a, key (f a) = key a)
    (l : List α) :
    sortByDesc key (l.map f) = (sortByDesc key l).map f := by
  induction l with
  | nil => rfl
  | cons x xs ih => simp only [List.map_cons, sortByDesc, ih, insertByDesc_map key f hkey]

theorem mem_insertByAsc (key : α → Int) (x a : α) (l : List α) :
    a ∈ insertByAsc key x l ↔ a = x ∨ a ∈ l := by
  induction l with
  | nil => simp [insertByAsc]
  | cons y ys ih =>
      unfold insertByAsc
      split
      · simp
      · simp [ih]; tauto

theorem length_insertByAsc (key : α → Int) (x : α) (l : List α) :
    (insertByAsc key x l).length = l.length + 1 := by
  induction l with
  | nil => simp [insertByAsc]
  | cons y ys ih => unfold insertByAsc; split <;> simp [ih]

theorem length_sortByAsc (key : α → Int) (l : List α) :
    (sortByAsc key l).length = l.length := by
  induction l with
  | nil => rfl
  | cons x xs ih => simp [sortByAsc, length_insertByAsc, ih]

theorem pairwise_insertByAsc (key : α → Int) (x : α) (l : List α)
    (h : l.Pairwise (fun a b => key a ≤ key b)) :
    (insertByAsc key x l).Pairwise (fun a b => key a ≤ key b) := by
  induction l with
  | nil => simp [insertByAsc]
  | cons y ys ih =>
      rw [List.pairwise_cons] at h
      obtain ⟨hy, hys⟩ := h
      unfold insertByAsc
      split
      · next hlt =>
          rw [List.pairwise_cons]
          refine ⟨?_, List.pairwise_cons.mpr ⟨hy, hys⟩⟩
          intro b hb
          rcases List.mem_cons.mp hb with rfl | hb
          · exact le_of_lt hlt
          · exact le_trans (le_of_lt hlt) (hy b hb)
      · next hge =>
          rw [List.pairwise_cons]
          refine ⟨?_, ih hys⟩
          intro b hb
          rcases (mem_insertByAsc key x b ys).mp hb with rfl | hb
          · omega
          · exact hy b hb

theorem pairwise_sortByAsc (key : α → Int) (l : List α) :
    (sortByAsc key l).Pairwise (fun a b => key a ≤ key b) := by
  induction l with
  | nil => simp [sortByAsc]
  | cons x xs ih => exact pairwise_insertByAsc key x _ ih

/-! ### C1 — score classification -/

/-- C1 counterexample: the guard is JavaScript falsiness, not `<= 0`, so the
negative score `-1` against par `4` is classified through `diff` (giving
`EagleOrBetter`) instead of returning `Unknown` as the claim requires. -/
theorem C1_counterexample :
    (-1 : Int) ≤ 0 ∧ classify (some (-1)) (some 4) = Category.EagleOrBetter ∧
      classify (some (-1)) (some 4) ≠ Category.Unknown :=
  ⟨by norm_num, by decide, by decide⟩

/-- C1 amended: `classify` is total; it returns `Unknown` exactly when either
input is absent or ZERO (not `<= 0`), and otherwise — including for negative
inputs — maps `diff = score - par` through the documented ladder. -/
theorem C1_classify_amended (score par : Int) (hs : score ≠ 0) (hp : par ≠ 0) :
    (score - par ≤ -2 → classify (some score) (some par) = Category.EagleOrBetter)
  ∧ (score - par = -1 → classify (some score) (some par) = Category.Birdie)
  ∧ (score - par = 0 → classify (some score) (some par) = Category.Par)
  ∧ (score - par = 1 → classify (some score) (some par) = Category.Bogey)
  ∧ (score - par = 2 → classify (some score) (some par) = Category.DoubleBogey)
  ∧ (3 ≤ score - par → classify (some score) (some par) = Category.TripleOrWorse)
  ∧ classify (some score) (some par) ≠ Category.Unknown
  ∧ (∀ q : Option Int, classify none q = Category.Unknown)
  ∧ (∀ q : Option Int, classify q none = Category.Unknown)
  ∧ (∀ q : Option Int, classify (some 0) q = Category.Unknown)
  ∧ (∀ q : Option Int, classify q (some 0) = Category.Unknown) := by
  have hc : classify (some score) (some par) =
      (if score - par ≤ -2 then Category.EagleOrBetter
       else if score - par = -1 then Category.Birdie
       else if score - par = 0 then Category.Par
       else if score - par = 1 then Category.Bogey
       else if score - par = 2 then Category.DoubleBogey
       else Category.TripleOrWorse) := by
    simp [classify, jsFalsyInt, hs, hp]
  refine ⟨?_, ?_, ?_, ?_, ?_, ?_, ?_, ?_, ?_, ?_, ?_⟩
  · intro h; rw [hc, if_pos h]
  · intro h; rw [hc]; split_ifs <;> first | rfl | omega
  · intro h; rw [hc]; split_ifs <;> first | rfl | omega
  · intro h; rw [hc]; split_ifs <;> first | rfl | omega
  · intro h; rw [hc]; split_ifs <;> first | rfl | omega
  · intro h; rw [hc]; split_ifs <;> first | omega | rfl
  · rw [hc]; split_ifs <;> simp
  · intro q; cases q <;> simp [classify, jsFalsyInt]
  · intro q; cases q <;> simp [classify, jsFalsyInt]
  · intro q; cases q <;> simp [classify, jsFalsyInt]
  · intro q; cases q <;> simp [classify, jsFalsyInt]

/-- C1 witness: the amended theorem applied at score 3, par 4 (a birdie). -/
theorem C1_classify_amended_witness :
    classify (some 3) (some 4) = Category.Birdie :=
  (C1_classify_amended 3 4 (by decide) (by decide)).2.1 (by decide)

/-! ### C2 — per-round vs per-hole average putts -/

/-- C2: on a single round of 18 holes with 2 putts each, the stats page's
`avgPutts` (total putts over the window divided by the number of selected
rounds) yields 36.0, while the feed's `avg_putts` (total putts divided by
putt-tracked holes) yields 2.0; the two conventions disagree. -/
theorem C2_avgPutts_divergence :
    statsAvgPutts (List.replicate 18 ⟨"r1", none, none, none, some 2, none, 1, 4, some 4⟩)
        [⟨"r1", 1, 72⟩] = 36
  ∧ feedAvgPutts (List.replicate 18 ⟨"r1", none, none, some 2, none, none⟩) = some 2
  ∧ (36 : ℚ) ≠ 2 := by
  refine ⟨?_, ?_, by norm_num⟩
  · simp [statsAvgPutts, List.replicate, round1]
    norm_num [jsRound, Rat.floor]
  · simp [feedAvgPutts, List.replicate]
    norm_num [jsRound, Rat.floor]

/-! ### C3 — empty-subset percentages -/

/-- C3 counterexample: the stats page aggregation reports `0` — rendered as
"0%" — for the fairway and GIR percentages of an empty hole set; its
codomain has no null at all, so "every aggregation reports null on an empty
subset" fails on this aggregation. -/
theorem C3_counterexample :
    statsFwPct [] = 0 ∧ statsGirPct [] = 0 :=
  ⟨rfl, rfl⟩

/-- C3 amended: the FEED aggregation yields null for every empty-subset
percentage and average (with the putts/score totals of an empty list equal
to 0), but the stats page aggregation yields the number 0 for the same
cases instead of null. -/
theorem C3_empty_aggregation :
    feedFairwayPct [] = none ∧ feedGirPct [] = none ∧ feedAvgPutts [] = none
  ∧ recentTotalPutts [] = 0 ∧ saveEditsNewTotal [] = 0
  ∧ statsFwPct [] = 0 ∧ statsGirPct [] = 0 ∧ statsAvgPutts [] [] = 0
  ∧ statsAvgScore [] = 0 :=
  ⟨rfl, rfl, rfl, rfl, rfl, rfl, rfl, rfl, rfl⟩

/-! ### C4 — fairway percentage excludes unknown outcomes -/

/-- C4: a hole with `fairway_hit = null` does not change the feed's fairway
percentage (it is excluded from the denominator); when some hole has a known
outcome the result is `round(100 * hits / known)`; and the three-hole
spec example `[hit, unknown, miss]` gives 50. -/
theorem C4_fairwayPct (hs : List FeedHoleRow) (h : FeedHoleRow)
    (hnull : h.fairway_hit = none)
    (hne : (hs.filter (fun x => x.fairway_hit.isSome)).length ≠ 0) :
    feedFairwayPct (h :: hs) = feedFairwayPct hs
  ∧ feedFairwayPct hs = some (jsRound (100 *
      (((hs.filter (fun x => x.fairway_hit.isSome)).filter
          (fun x => x.fairway_hit == some true)).length : ℚ) /
      ((hs.filter (fun x => x.fairway_hit.isSome)).length : ℚ)))
  ∧ feedFairwayPct [⟨"r", some true, none, none, none, none⟩,
      ⟨"r", none, none, none, none, none⟩,
      ⟨"r", some false, none, none, none, none⟩] = some 50
  ∧ (∀ (hs₂ : List StatsHoleRow) (h₂ : StatsHoleRow), h₂.fairway_hit = none →
      statsFwPct (h₂ :: hs₂) = statsFwPct hs₂)
  ∧ statsFwPct [⟨"r", some true, none, none, none, none, 1, 4, none⟩,
      ⟨"r", none, none, none, none, none, 2, 3, none⟩,
      ⟨"r", some false, none, none, none, none, 3, 5, none⟩] = 50 := by
  refine ⟨?_, ?_, ?_, ?_, ?_⟩
  · have hf : (h :: hs).filter (fun x => x.fairway_hit.isSome)
        = hs.filter (fun x => x.fairway_hit.isSome) := by
      simp [List.filter_cons, hnull]
    simp only [feedFairwayPct, hf]
  · have harg : ∀ a b : ℚ, a / b * 100 = 100 * a / b := by intro a b; ring
    simp only [feedFairwayPct, if_neg hne, harg]
  · simp [feedFairwayPct]
    norm_num [jsRound, Rat.floor]
  · intro hs₂ h₂ hnull₂
    have hf : (h₂ :: hs₂).filter (fun x => x.fairway_hit.isSome)
        = hs₂.filter (fun x => x.fairway_hit.isSome) := by
      simp [List.filter_cons, hnull₂]
    simp only [statsFwPct, hf]
  · simp [statsFwPct]
    norm_num [jsRound, Rat.floor]

/-- C4 witness: the theorem applied to the null-fairway hole consed onto the
two known-outcome holes. -/
theorem C4_fairwayPct_witness :
    feedFairwayPct [⟨"r", none, none, none, none, none⟩,
        ⟨"r", some true, none, none, none, none⟩,
        ⟨"r", some false, none, none, none, none⟩]
      = feedFairwayPct [⟨"r", some true, none, none, none, none⟩,
        ⟨"r", some false, none, none, none, none⟩] :=
  (C4_fairwayPct [⟨"r", some true, none, none, none, none⟩,
      ⟨"r", some false, none, none, none, none⟩]
    ⟨"r", none, none, none, none, none⟩ rfl (by decide)).1

/-! ### C5 — recency windowing of the stats page -/

/-- C5: the stats page orders rounds by `date_played` ascending and the
numeric window keeps exactly the suffix `rounds.slice(-N)`; with 12 rounds,
window 5 keeps exactly the 5 rounds at indices 7–11, and every hole-score
row the statistics consume belongs to one of those kept rounds. -/
theorem C5_windowing (db : List RoundStat) (scores : List StatsHoleRow)
    (h12 : db.length = 12) :
    List.Pairwise (fun a b : RoundStat => a.date_played ≤ b.date_played) (orderByDateAsc db)
  ∧ filteredRounds (orderByDateAsc db) (RangeOption.lastN 5) = (orderByDateAsc db).drop 7
  ∧ (filteredRounds (orderByDateAsc db) (RangeOption.lastN 5)).length = 5
  ∧ (∀ h ∈ filteredScores scores
        ((filteredRounds (orderByDateAsc db) (RangeOption.lastN 5)).map (fun r => r.id)),
      h.round_id ∈ (filteredRounds (orderByDateAsc db) (RangeOption.lastN 5)).map (fun r => r.id))
  ∧ (∀ (n : Nat) (rounds : List RoundStat),
      filteredRounds rounds (RangeOption.lastN n) = rounds.drop (rounds.length - n))
  ∧ (∀ (n : Nat) (rounds : List RoundStat),
      List.IsSuffix (filteredRounds rounds (RangeOption.lastN n)) rounds) := by
  have hlen : (orderByDateAsc db).length = 12 := by
    rw [orderByDateAsc, length_sortByAsc, h12]
  refine ⟨pairwise_sortByAsc _ db, ?_, ?_, ?_, fun n rounds => rfl, ?_⟩
  · simp [filteredRounds, jsSliceLast, hlen]
  · simp [filteredRounds, jsSliceLast, hlen]
  · intro x hx
    rw [filteredScores, List.mem_filter] at hx
    simpa using hx.2
  · intro n rounds
    exact List.drop_suffix _ _

/-- C5 witness: the theorem at 12 concrete rounds already in date order. -/
theorem C5_windowing_witness :
    filteredRounds (orderByDateAsc
        [⟨"r1", 1, 70⟩, ⟨"r2", 2, 71⟩, ⟨"r3", 3, 72⟩, ⟨"r4", 4, 73⟩,
         ⟨"r5", 5, 74⟩, ⟨"r6", 6, 75⟩, ⟨"r7", 7, 76⟩, ⟨"r8", 8, 77⟩,
         ⟨"r9", 9, 78⟩, ⟨"r10", 10, 79⟩, ⟨"r11", 11, 80⟩, ⟨"r12", 12, 81⟩])
      (RangeOption.lastN 5)
    = (orderByDateAsc
        [⟨"r1", 1, 70⟩, ⟨"r2", 2, 71⟩, ⟨"r3", 3, 72⟩, ⟨"r4", 4, 73⟩,
         ⟨"r5", 5, 74⟩, ⟨"r6", 6, 75⟩, ⟨"r7", 7, 76⟩, ⟨"r8", 8, 77⟩,
         ⟨"r9", 9, 78⟩, ⟨"r10", 10, 79⟩, ⟨"r11", 11, 80⟩, ⟨"r12", 12, 81⟩]).drop 7 :=
  (C5_windowing _ [] (by decide)).2.1

/-! ### C6 — club-distance aggregation -/

/-- C6 counterexample: a NEGATIVE distance is truthy in JavaScript, so the
shot `{club: '7i', distanceYards: -5}` is not excluded — it produces a club
entry — refuting "every shot with non-positive distance is excluded". -/
theorem C6_counterexample :
    ((-5 : Int) ≤ 0) ∧ clubStats [⟨some "7i", some (-5)⟩] = [⟨"7i", -5, 1⟩] := by
  refine ⟨by norm_num, ?_⟩
  simp [clubStats, validShots, clubNames, clubDistances, jsFalsyStr, jsFalsyInt,
    sortByDesc, insertByDesc]
  norm_num [jsRound, Rat.floor]

/-- C6 amended: grouping is by exact club string over shots whose club is
present and non-empty and whose distance is present and NON-ZERO (negative
distances are kept); each club's `avgDistance` is `round(sum/count)` with
`count` the number of its kept shots; the list is sorted descending by
`avgDistance`; the spec's concrete example holds. -/
theorem C6_clubStats_amended :
    clubStats [⟨some "7i", some 150⟩, ⟨some "7i", some 160⟩, ⟨some "Driver", some 0⟩]
      = [⟨"7i", 155, 2⟩]
  ∧ (∀ (s : ShotRow) (shots : List ShotRow),
      (jsFalsyStr s.club || jsFalsyInt s.distance_yards) = true →
        clubStats (s :: shots) = clubStats shots)
  ∧ (∀ shots : List ShotRow,
      (clubStats shots).Pairwise (fun a b => b.avgDistance ≤ a.avgDistance))
  ∧ (∀ (shots : List ShotRow) (cs : ClubStat), cs ∈ clubStats shots →
      cs.club ∈ clubNames (validShots shots)
    ∧ cs.count = (clubDistances (validShots shots) cs.club).length
    ∧ cs.avgDistance = jsRound ((((clubDistances (validShots shots) cs.club).foldl
          (fun a b => a + b) 0 : Int) : ℚ)
        / (((clubDistances (validShots shots) cs.club).length : Nat) : ℚ))) := by
  refine ⟨?_, ?_, ?_, ?_⟩
  · simp [clubStats, validShots, clubNames, clubDistances, jsFalsyStr, jsFalsyInt,
      sortByDesc, insertByDesc]
    norm_num [jsRound, Rat.floor]
  · intro s shots hfalsy
    have hskip : (!jsFalsyStr s.club && !jsFalsyInt s.distance_yards) = false := by
      simp only [Bool.or_eq_true] at hfalsy
      rcases hfalsy with h1 | h1 <;> simp [h1]
    simp [clubStats, validShots, List.filter_cons, hskip]
  · intro shots
    exact pairwise_sortByDesc _ _
  · intro shots cs hcs
    simp only [clubStats] at hcs
    rw [mem_sortByDesc] at hcs
    obtain ⟨c, hc, rfl⟩ := List.mem_map.mp hcs
    exact ⟨hc, rfl, rfl⟩

/-- C6 witness: the exclusion clause of the amended theorem applied to the
zero-distance Driver shot. -/
theorem C6_clubStats_amended_witness :
    clubStats [⟨some "Driver", some 0⟩, ⟨some "7i", some 150⟩]
      = clubStats [⟨some "7i", some 150⟩] :=
  C6_clubStats_amended.2.1 ⟨some "Driver", some 0⟩ [⟨some "7i", some 150⟩] (by decide)

/-! ### C7 — visibility filter of the partners-based feed loader -/

/-- C7 counterexample: the owner A follows viewer B (accepted), B does not
follow A, the round's visibility is `partners` — the code admits the round
(the relationship query matches either direction), while the claim's rule
("the viewer follows the round's owner, and no other condition") denies it. -/
theorem C7_counterexample :
    isVisible ⟨"r1", "A", 1, 85, "", "partners", true⟩ "B"
        [⟨"A", "B", "follow", "accepted"⟩] = true
  ∧ ¬ isVisibleSpec ⟨"r1", "A", 1, 85, "", "partners", true⟩ "B"
        [⟨"A", "B", "follow", "accepted"⟩] := by
  constructor
  · decide
  · decide

/-- C7 amended: the filter admits a round exactly when it is the viewer's
own, or public, or partners-visible with an accepted relationship between
viewer and owner in EITHER direction (the relationship's type is not
checked); mutuality is not required. -/
theorem C7_isVisible_amended (r : RoundRow) (viewer : String) (rels : List RelEdge) :
    isVisible r viewer rels = true ↔
      (r.user_id = viewer ∨ r.visibility = "public" ∨
        (r.visibility = "partners" ∧ ∃ e ∈ rels, e.status = "accepted" ∧
          ((e.user_id = viewer ∧ e.target_id = r.user_id) ∨
           (e.user_id = r.user_id ∧ e.target_id = viewer)))) := by
  have hpartner : r.user_id ∈ partnerIds viewer rels ↔
      ∃ e ∈ rels, e.status = "accepted" ∧
        ((e.user_id = viewer ∧ e.target_id = r.user_id) ∨
         (e.user_id = r.user_id ∧ e.target_id = viewer)) := by
    unfold partnerIds
    rw [List.mem_map]
    constructor
    · rintro ⟨e, he, heq⟩
      rw [List.mem_filter] at he
      obtain ⟨hmem, hcond⟩ := he
      simp only [Bool.and_eq_true, Bool.or_eq_true, beq_iff_eq] at hcond
      obtain ⟨hdir, hacc⟩ := hcond
      by_cases hu : e.user_id = viewer
      · refine ⟨e, hmem, hacc, Or.inl ⟨hu, ?_⟩⟩
        simpa [hu] using heq
      · have ht : e.target_id = viewer := by tauto
        refine ⟨e, hmem, hacc, Or.inr ⟨?_, ht⟩⟩
        simpa [hu] using heq
    · rintro ⟨e, hmem, hacc, hcase⟩
      refine ⟨e, ?_, ?_⟩
      · rw [List.mem_filter]
        refine ⟨hmem, ?_⟩
        simp only [Bool.and_eq_true, Bool.or_eq_true, beq_iff_eq]
        rcases hcase with ⟨hu, ht⟩ | ⟨hu, ht⟩
        · exact ⟨Or.inl hu, hacc⟩
        · exact ⟨Or.inr ht, hacc⟩
      · rcases hcase with ⟨hu, ht⟩ | ⟨hu, ht⟩
        · simpa [hu] using ht
        · by_cases hv : e.user_id = viewer
          · subst hv
            simpa using ht.trans hu
          · simpa [hv] using hu
  unfold isVisible
  simp only [Bool.or_eq_true, Bool.and_eq_true, beq_iff_eq]
  have hcont : ((partnerIds viewer rels).contains r.user_id = true) ↔
      r.user_id ∈ partnerIds viewer rels := by simp
  rw [hcont, hpartner, or_assoc]

/-! ### C8 — stored total equals sum of hole scores; aggregation determinism -/

/-- C8: the feed's `saveEdits` stores `sum(h.score || 0)` as the round total
while writing back exactly those hole scores, so the stored total equals the
sum of the stored hole scores; `saveRound` maintains the same identity for
the rows it inserts (for in-range indices); and the per-round aggregation is
deterministic — identical inputs give identical outputs. -/
theorem C8_total_invariant :
    (∀ edits : List EditHoleScore,
      saveEditsNewTotal edits = (edits.map (fun h => h.score)).sum)
  ∧ (∀ (tw : Bool) (parOf : Nat → Option Int) (entries : List HoleEntry) (active : List Nat),
      (∀ i ∈ active, i < entries.length) →
        saveRoundTotalScore entries active
          = ((saveRoundScoreRows tw parOf entries active).map (fun row => row.score)).sum)
  ∧ (∀ hs₁ hs₂ : List FeedHoleRow, hs₁ = hs₂ →
      (feedFairwayPct hs₁, feedGirPct hs₁, feedAvgPutts hs₁, feedBirdies hs₁, feedEagles hs₁)
        = (feedFairwayPct hs₂, feedGirPct hs₂, feedAvgPutts hs₂, feedBirdies hs₂, feedEagles hs₂)) := by
  refine ⟨?_, ?_, ?_⟩
  · intro edits
    rw [saveEditsNewTotal, foldl_add_eq (fun h => jsOrZero h.score) edits 0, zero_add]
    simp [jsOrZero_eq]
  · intro tw parOf entries active hrange
    rw [saveRoundTotalScore,
      foldl_add_eq (fun i => match entries.get? i with
        | some e => jsOrZero e.score
        | none => 0) active 0,
      zero_add, saveRoundScoreRows, List.map_map]
    congr 1
    apply List.map_congr_left
    intro i hi
    have hlt := hrange i hi
    have hsome : entries[i]? = some entries[i] := List.getElem?_eq_getElem hlt
    simp [savedHoleScore, List.getD, hsome, jsOrZero_eq]
  · intro hs₁ hs₂ h
    rw [h]

/-- C8 witness: the saveRound identity at one entry and index 0. -/
theorem C8_total_invariant_witness :
    saveRoundTotalScore [initHoleEntry] [0]
      = ((saveRoundScoreRows true (fun _ => none) [initHoleEntry] [0]).map
          (fun row => row.score)).sum :=
  C8_total_invariant.2.1 true (fun _ => none) [initHoleEntry] [0] (by decide)

/-! ### C10 — miss direction only with an actual fairway miss -/

/-- C10: every hole-score row built by `saveRound` carries
`fairway_miss_dir = null` unless its `fairway_hit` is exactly `false`
(stated for the row builder and for every inserted row), and
`updateHoleEntry` clears `fairway_miss_dir` whenever `fairway_hit` is set to
any value other than `false`. -/
theorem C10_missDir_invariant :
    (∀ (tw : Bool) (hn : Int) (p : Option Int) (e : HoleEntry),
      e.fairway_hit ≠ some false → (savedHoleScore tw hn p e).fairway_miss_dir = none)
  ∧ (∀ (tw : Bool) (parOf : Nat → Option Int) (entries : List HoleEntry) (active : List Nat)
      (row : SavedHoleScore), row ∈ saveRoundScoreRows tw parOf entries active →
        row.fairway_hit ≠ some false → row.fairway_miss_dir = none)
  ∧ (∀ (mode : TrackingMode) (e : HoleEntry) (v : Option Bool), v ≠ some false →
      (updateHoleEntry mode e (HoleUpdate.setFairwayHit v)).fairway_miss_dir = none) := by
  have key : ∀ (tw : Bool) (hn : Int) (p : Option Int) (e : HoleEntry),
      e.fairway_hit ≠ some false → (savedHoleScore tw hn p e).fairway_miss_dir = none := by
    intro tw hn p e hne
    simp [savedHoleScore, hne]
  refine ⟨key, ?_, ?_⟩
  · intro tw parOf entries active row hrow hne
    obtain ⟨i, hi, rfl⟩ := List.mem_map.mp hrow
    exact key tw _ _ _ hne
  · intro mode e v hv
    simp [updateHoleEntry, hv]

/-- C10 witness: setting `fairway_hit` to `true` clears the stored miss
direction. -/
theorem C10_missDir_invariant_witness :
    (updateHoleEntry TrackingMode.basic
        { initHoleEntry with fairway_hit := some false, fairway_miss_dir := some "L" }
        (HoleUpdate.setFairwayHit (some true))).fairway_miss_dir = none :=
  C10_missDir_invariant.2.2 TrackingMode.basic
    { initHoleEntry with fairway_hit := some false, fairway_miss_dir := some "L" }
    (some true) (by decide)

/-! ### C9 — the follow-based loader ignores visibility when selecting -/

theorem filter_map_eq (f : α → α) (p : α → Bool) (hp : ∀ a, p (f a) = p a) (l : List α) :
    (l.map f).filter p = (l.filter p).map f := by
  induction l with
  | nil => rfl
  | cons x xs ih =>
      simp only [List.map_cons, List.filter_cons, hp]
      split <;> simp [ih]

theorem erase_mkFeedEntry_update (scores : List FeedHoleRow) (wedgeRows : List WedgeRow)
    (rid v : String) (r : RoundRow) :
    eraseEntryVisibility (mkFeedEntry scores wedgeRows
        (if r.id = rid then { r with visibility := v } else r))
      = eraseEntryVisibility (mkFeedEntry scores wedgeRows r) := by
  split <;> rfl

/-- C9 counterexample: the feed entries echo the round's visibility field
verbatim, so two runs that differ only in a followed user's round visibility
produce literally different feeds (differing in that echoed field). -/
theorem C9_counterexample :
    loadFeed [⟨"r1", "A", 1, 85, "", "private", true⟩] "B"
        [⟨"B", "A", "follow", "accepted"⟩] [] []
      ≠ loadFeed [⟨"r1", "A", 1, 85, "", "public", true⟩] "B"
        [⟨"B", "A", "follow", "accepted"⟩] [] [] := by
  decide

/-- C9 amended: up to the echoed visibility field, the follow-based feed
does not depend on any round's visibility value — changing one round's
visibility leaves the selection, order and statistics unchanged — and every
completed round of a followed user is included regardless of its visibility
(whenever at most 50 rounds survive the completeness/ownership filter). -/
theorem C9_visibility_noninterference (db : List RoundRow) (viewer : String)
    (rels : List RelEdge) (scores : List FeedHoleRow) (wedgeRows : List WedgeRow)
    (rid v : String) :
    ((loadFeed (updateVisibility db rid v) viewer rels scores wedgeRows).map eraseEntryVisibility
      = (loadFeed db viewer rels scores wedgeRows).map eraseEntryVisibility)
  ∧ (∀ r : RoundRow, r ∈ db → r.is_complete = true →
      (∃ e ∈ rels, e.user_id = viewer ∧ e.target_id = r.user_id ∧
        e.type = "follow" ∧ e.status = "accepted") →
      (db.filter (fun x => x.is_complete
          && (visibleUserIds viewer rels).contains x.user_id)).length ≤ 50 →
      r.id ∈ (loadFeed db viewer rels scores wedgeRows).map (fun fe => fe.id)) := by
  constructor
  · have hpred : ∀ a : RoundRow,
        ((fun x : RoundRow => x.is_complete && (visibleUserIds viewer rels).contains x.user_id)
          (if a.id = rid then { a with visibility := v } else a))
        = (fun x : RoundRow => x.is_complete && (visibleUserIds viewer rels).contains x.user_id) a := by
      intro a; by_cases h : a.id = rid <;> simp [h]
    have hkey : ∀ a : RoundRow,
        ((fun x : RoundRow => x.date_played) (if a.id = rid then { a with visibility := v } else a))
        = a.date_played := by
      intro a; by_cases h : a.id = rid <;> simp [h]
    unfold loadFeed loadFeedRounds updateVisibility
    rw [filter_map_eq _ _ hpred, sortByDesc_map _ _ hkey, ← List.map_take,
      List.map_map, List.map_map, List.map_map]
    apply List.map_congr_left
    intro r hr
    exact erase_mkFeedEntry_update scores wedgeRows rid v r
  · rintro r hmem hcomp ⟨e, he, heu, het, hetype, hestat⟩ hlen
    have hvis : r.user_id ∈ visibleUserIds viewer rels := by
      unfold visibleUserIds followingIds
      apply List.mem_cons_of_mem
      rw [List.mem_map]
      refine ⟨e, ?_, het⟩
      rw [List.mem_filter]
      exact ⟨he, by simp [heu, hetype, hestat]⟩
    have hpr : (r.is_complete && (visibleUserIds viewer rels).contains r.user_id) = true := by
      simp [hcomp]
      simpa using hvis
    have hrf : r ∈ db.filter (fun x => x.is_complete
        && (visibleUserIds viewer rels).contains x.user_id) :=
      List.mem_filter.mpr ⟨hmem, hpr⟩
    have hrs : r ∈ sortByDesc (fun x : RoundRow => x.date_played)
        (db.filter (fun x => x.is_complete
          && (visibleUserIds viewer rels).contains x.user_id)) :=
      (mem_sortByDesc _ _ _).mpr hrf
    have hlen2 : (sortByDesc (fun x : RoundRow => x.date_played)
        (db.filter (fun x => x.is_complete
          && (visibleUserIds viewer rels).contains x.user_id))).length ≤ 50 := by
      rw [length_sortByDesc]; exact hlen
    unfold loadFeed loadFeedRounds
    rw [List.take_of_length_le hlen2, List.map_map]
    exact List.mem_map.mpr ⟨r, hrs, rfl⟩

/-- C9 witness: the amended theorem at one followed user's private round. -/
theorem C9_visibility_noninterference_witness :
    ((loadFeed (updateVisibility [⟨"r1", "A", 1, 85, "", "private", true⟩] "r1" "public") "B"
        [⟨"B", "A", "follow", "accepted"⟩] [] []).map eraseEntryVisibility
      = (loadFeed [⟨"r1", "A", 1, 85, "", "private", true⟩] "B"
        [⟨"B", "A", "follow", "accepted"⟩] [] []).map eraseEntryVisibility)
  ∧ "r1" ∈ (loadFeed [⟨"r1", "A", 1, 85, "", "private", true⟩] "B"
        [⟨"B", "A", "follow", "accepted"⟩] [] []).map (fun fe => fe.id) := by
  have h := C9_visibility_noninterference [⟨"r1", "A", 1, 85, "", "private", true⟩] "B"
    [⟨"B", "A", "follow", "accepted"⟩] [] [] "r1" "public"
  exact ⟨h.1, h.2 ⟨"r1", "A", 1, 85, "", "private", true⟩ (by decide) (by decide)
    ⟨⟨"B", "A", "follow", "accepted"⟩, by decide, by decide, by decide, by decide, by decide⟩
    (by decide)⟩

end Sandbagger
